import Mathlib

/-!
Verification of the Apple iBridge descriptor-splitting multiplexer
(drivers/hid/hid-appleib.c and drivers/hid/apple-ibridge.c).

Byte streams are modelled as lists of naturals (each byte < 256); pointer
cursors into the descriptor become list suffixes, so the value returned by a
scanner call is the pair of the computed usage and the unconsumed suffix.
Side effects on the host HID framework (device registration and destruction)
are modelled by threading an explicit environment holding the registered
device identifiers.
-/

namespace AppleIB

/- HID item type and tag constants, as used by the scanner. -/

def HID_ITEM_TYPE_MAIN : Nat := 0
def HID_ITEM_TYPE_GLOBAL : Nat := 1
def HID_ITEM_TYPE_LOCAL : Nat := 2
def HID_MAIN_ITEM_TAG_BEGIN_COLLECTION : Nat := 10
def HID_MAIN_ITEM_TAG_END_COLLECTION : Nat := 12
def HID_GLOBAL_ITEM_TAG_USAGE_PAGE : Nat := 0
def HID_LOCAL_ITEM_TAG_USAGE : Nat := 0

structure HidItem where
  type : Nat
  tag : Nat
  size : Nat
  data : Nat

/-- Modelled from the spec: the host framework's item-fetch primitive
(hid_fetch_item, which is not part of this repository): it advances a cursor
through the binary descriptor stream, yielding one structured item
(type/tag/size and little-endian data) together with the updated cursor, and
fails on a truncated stream. A short item encodes its data size in the low two
bits of the prefix byte (code 3 meaning four bytes); a long item (tag 15)
carries an explicit size byte followed by its real tag. -/
def hid_fetch_item : List Nat → Option (HidItem × List Nat)
  | [] => none
  | b :: rest =>
    if (b >>> 4) % 16 = 15 then
      match rest with
      | size :: tag :: rest2 =>
        if rest2.length < size then none
        else some (⟨(b >>> 2) % 4, tag, size, 0⟩, rest2.drop size)
      | _ => none
    else if b % 4 = 0 then
      some (⟨(b >>> 2) % 4, (b >>> 4) % 16, 0, 0⟩, rest)
    else if b % 4 = 1 then
      match rest with
      | d0 :: r => some (⟨(b >>> 2) % 4, (b >>> 4) % 16, 1, d0⟩, r)
      | _ => none
    else if b % 4 = 2 then
      match rest with
      | d0 :: d1 :: r => some (⟨(b >>> 2) % 4, (b >>> 4) % 16, 2, d0 + d1 * 256⟩, r)
      | _ => none
    else
      match rest with
      | d0 :: d1 :: d2 :: d3 :: r =>
        some (⟨(b >>> 2) % 4, (b >>> 4) % 16, 4,
               d0 + d1 * 256 + d2 * 65536 + d3 * 16777216⟩, r)
      | _ => none

/-- Modelled from the spec: numeric-value extraction from an item's data
(hid_item_udata, not part of this repository): the assembled unsigned value
for 1-, 2- and 4-byte short items, and 0 otherwise. -/
def hid_item_udata (item : HidItem) : Nat :=
  if item.size = 1 ∨ item.size = 2 ∨ item.size = 4 then item.data else 0

/-- The descriptor Scanner (appleib_find_collection): walks items from the
cursor, maintaining a nesting depth initialized to 0; Begin Collection
increments it, End Collection decrements it and ends the scan once depth
reaches 0 or below; Usage Page / Usage items seen while depth is 0 set the
high / low 16 bits of the usage accumulator. Returns the accumulated usage
and the suffix just past the terminating End Collection item (the whole
stream is consumed if no such item is found). -/
def findCollectionAux (bytes : List Nat) (depth : Int) (usage : Nat) : Nat × List Nat :=
  match h : hid_fetch_item bytes with
  | none => (usage, [])
  | some (item, rest) =>
    if item.type = HID_ITEM_TYPE_MAIN then
      if item.tag = HID_MAIN_ITEM_TAG_BEGIN_COLLECTION then
        findCollectionAux rest (depth + 1) usage
      else if item.tag = HID_MAIN_ITEM_TAG_END_COLLECTION then
        if depth - 1 ≤ 0 then (usage, rest)
        else findCollectionAux rest (depth - 1) usage
      else
        findCollectionAux rest depth usage
    else
      if item.type = HID_ITEM_TYPE_GLOBAL ∧ item.tag = HID_GLOBAL_ITEM_TAG_USAGE_PAGE ∧
          depth = 0 then
        findCollectionAux rest depth (usage % 65536 + hid_item_udata item % 65536 * 65536)
      else if item.type = HID_ITEM_TYPE_LOCAL ∧ item.tag = HID_LOCAL_ITEM_TAG_USAGE ∧
          depth = 0 then
        findCollectionAux rest depth (usage / 65536 % 65536 * 65536 + hid_item_udata item % 65536)
      else
        findCollectionAux rest depth usage
termination_by bytes.length
decreasing_by
  all_goals
    (rcases bytes with - | ⟨b, r⟩
     · simp [hid_fetch_item] at h
     · simp only [hid_fetch_item] at h
       repeat' split at h
       all_goals
         try (simp only [Option.some.injEq, Prod.mk.injEq] at h
              obtain ⟨-, h2⟩ := h
              subst h2
              simp only [List.length_cons, List.length_drop]
              omega)
       all_goals exact absurd h (by simp))

/-- Entry point of the Scanner: depth and usage both start at 0
(the usage accumulator is reset on every call). -/
def appleib_find_collection (bytes : List Nat) : Nat × List Nat :=
  findCollectionAux bytes 0 0

/- Structured descriptor items and their byte encodings, used to state
well-formedness of descriptor segments. -/

structure RawItem where
  type : Nat
  tag : Nat
  data : List Nat

def sizeCode (n : Nat) : Nat := if n = 4 then 3 else n

def encodeItem (it : RawItem) : List Nat :=
  (it.tag * 16 + it.type * 4 + sizeCode it.data.length) :: it.data

def encodeList (items : List RawItem) : List Nat := (items.map encodeItem).flatten

def dataVal : List Nat → Nat
  | [] => 0
  | d :: r => d + 256 * dataVal r

def toHidItem (it : RawItem) : HidItem :=
  ⟨it.type, it.tag, it.data.length, dataVal it.data⟩

def wfItem (it : RawItem) : Bool :=
  decide (it.type < 4) && decide (it.tag < 15) &&
    (it.data.length == 0 || it.data.length == 1 || it.data.length == 2 || it.data.length == 4)

/-- Depth contribution of one item: +1 for Begin Collection, -1 for
End Collection, 0 otherwise. -/
def netItem (it : RawItem) : Int :=
  if it.type = 0 ∧ it.tag = 10 then 1 else if it.type = 0 ∧ it.tag = 12 then -1 else 0

def netList : List RawItem → Int
  | [] => 0
  | it :: rest => netItem it + netList rest

/-- Scanning the item list from depth d keeps the running depth at or above 1
after every item (so a scan that entered a collection neither returns nor
reaches depth 0 while inside this list). -/
def staysAbove : Int → List RawItem → Bool
  | _, [] => true
  | d, it :: rest => decide (1 ≤ d + netItem it) && staysAbove (d + netItem it) rest

/-- Effect of one depth-0 item on the usage accumulator, mirroring the
Usage Page / Usage branches of the scanner. -/
def usageStep (it : RawItem) (u : Nat) : Nat :=
  if it.type = 1 ∧ it.tag = 0 then u % 65536 + hid_item_udata (toHidItem it) % 65536 * 65536
  else if it.type = 2 ∧ it.tag = 0 then
    u / 65536 % 65536 * 65536 + hid_item_udata (toHidItem it) % 65536
  else u

/-- An item that may appear before the Begin Collection of a top-level
collection: anything but a Begin/End Collection main item. -/
def isPreItem (it : RawItem) : Bool := !(it.type == 0 && (it.tag == 10 || it.tag == 12))

/-- A well-formed top-level collection: leading items at depth 0, a Begin
Collection item, a properly nested body and the matching End Collection. -/
structure TLC where
  pre : List RawItem
  beginItem : RawItem
  body : List RawItem
  endItem : RawItem

def wfTLC (t : TLC) : Bool :=
  t.pre.all (fun it => wfItem it && isPreItem it) &&
    (wfItem t.beginItem && (t.beginItem.type == 0 && t.beginItem.tag == 10)) &&
    (t.body.all wfItem && (staysAbove 1 t.body && (netList t.body == 0))) &&
    (wfItem t.endItem && (t.endItem.type == 0 && t.endItem.tag == 12))

def TLC.bytes (t : TLC) : List Nat :=
  encodeList t.pre ++ encodeItem t.beginItem ++ encodeList t.body ++ encodeItem t.endItem

def TLC.usage (t : TLC) : Nat := t.pre.foldl (fun a it => usageStep it a) 0

/-- A concrete top-level collection declaring the Touch Bar backlight usage
(Usage Page 0xff12, Usage 0x0001, Collection Application, End Collection). -/
def tlcTB : TLC :=
  ⟨[⟨1, 0, [0x12, 0xFF]⟩, ⟨2, 0, [0x01]⟩], ⟨0, 10, [0x01]⟩, [], ⟨0, 12, []⟩⟩

/-- A concrete top-level collection declaring the ambient light sensor usage
(Usage Page 0x0020, Usage 0x0041, Collection Application, End Collection). -/
def tlcALS : TLC :=
  ⟨[⟨1, 0, [0x20, 0x00]⟩, ⟨2, 0, [0x41]⟩], ⟨0, 10, [0x01]⟩, [], ⟨0, 12, []⟩⟩

/-- A concrete top-level collection with no depth-0 usage items at all
(just Collection Application, End Collection). -/
def tlcBare : TLC := ⟨[], ⟨0, 10, [0x01]⟩, [], ⟨0, 12, []⟩⟩

/- The static usage classification table (appleib_usages) of
hid-appleib.c: ambient light sensor and Touch Bar backlight. -/

def appleib_usages : List Nat := [0x00200041, 0xff120001]

def appleib_usage_in_list (usage : Nat) : Bool := appleib_usages.contains usage

/-- The scanning loop of appleib_add_sub_devs, separated from its side
effects: starting from the full descriptor, repeatedly run the Scanner and
collect (segment, usage) pairs, resuming each call at the previous call's end
offset, until the descriptor is exhausted. Structured with explicit fuel for
termination; one scanner call consumes at least one byte, so fuel
length + 1 never runs out (scanSegments_unfold below). -/
def scanSegmentsAux : Nat → List Nat → List (List Nat × Nat)
  | 0, _ => []
  | fuel + 1, bytes =>
    let r := appleib_find_collection bytes
    let seg := bytes.take (bytes.length - r.2.length)
    if r.2 = [] then [(seg, r.1)]
    else (seg, r.1) :: scanSegmentsAux fuel r.2

def scanSegments (bytes : List Nat) : List (List Nat × Nat) :=
  scanSegmentsAux (bytes.length + 1) bytes

/- The host HID framework's registration state, modelled as the list of
registered device identifiers plus a fresh-identifier counter. -/

structure HidEnv where
  nextId : Nat
  registered : List Nat
deriving DecidableEq

/-- hid_destroy_device: the given device is unregistered and released. -/
def hid_destroy_device (env : HidEnv) (id : Nat) : HidEnv :=
  ⟨env.nextId, env.registered.filter (fun x => x != id)⟩

/-- appleib_add_sub_dev: allocate a virtual device, parse its descriptor
slice and register it. The fallible host-framework steps (hid_parse_report,
hid_add_device) are abstracted by the fail argument: on some e, the partially
constructed device is destroyed again and the error is returned, leaving the
registration state unchanged; on none, the device gets a fresh identifier and
is registered. -/
def appleib_add_sub_dev (env : HidEnv) (fail : Option Int) : Except Int Nat × HidEnv :=
  match fail with
  | some e => (.error e, env)
  | none => (.ok env.nextId, ⟨env.nextId + 1, env.registered ++ [env.nextId]⟩)

/-- The rollback loop of appleib_add_sub_devs (while (i--)
hid_destroy_device(sub_hdevs[i])): destroy the devices in slots i-1 down
to 0. -/
def rollback (slots : List (Option (Nat × Nat))) (i : Nat) (env : HidEnv) : HidEnv :=
  match i with
  | 0 => env
  | j + 1 =>
    rollback slots j
      (match slots.getD j none with
       | some (id, _) => hid_destroy_device env id
       | none => env)

/-- The per-segment body of the appleib_add_sub_devs loop, iterated over the
(segment, usage) pairs produced by the Scanner: unrecognized usages and
collections beyond the capacity of the slot array are skipped with a warning;
otherwise a virtual device is created for the segment and stored in slot i
(recorded here with its usage); on a creation error all previously filled
slots are destroyed and the error is returned. -/
def processSegs (fail : Nat → Option Int) :
    List (List Nat × Nat) → Nat → List (Option (Nat × Nat)) → HidEnv →
      Except Int Unit × List (Option (Nat × Nat)) × HidEnv
  | [], _, slots, env => (.ok (), slots, env)
  | (_, usage) :: rest, i, slots, env =>
    if appleib_usage_in_list usage = false then
      processSegs fail rest i slots env
    else if slots.length ≤ i then
      processSegs fail rest i slots env
    else
      match appleib_add_sub_dev env (fail i) with
      | (.error e, env2) => (.error e, slots, rollback slots i env2)
      | (.ok id, env2) => processSegs fail rest (i + 1) (slots.set i (some (id, usage))) env2

/-- appleib_add_sub_devs: scan the descriptor into segments and run the
creation loop over them, starting with an empty two-slot array. -/
def appleib_add_sub_devs (bytes : List Nat) (fail : Nat → Option Int) (env : HidEnv) :
    Except Int Unit × List (Option (Nat × Nat)) × HidEnv :=
  processSegs fail (scanSegments bytes) 0 [none, none] env

/-- The usages of the occupied slots, in slot order. -/
def slotUsages (slots : List (Option (Nat × Nat))) : List Nat :=
  slots.filterMap (fun o => o.map Prod.snd)

/-- The device identifiers of the occupied slots, in slot order. -/
def slotIds (slots : List (Option (Nat × Nat))) : List Nat :=
  slots.filterMap (fun o => o.map Prod.fst)

/-- The usages of the recognized segments, in scan order. -/
def recogUsages (segs : List (List Nat × Nat)) : List Nat :=
  (segs.filter (fun s => appleib_usage_in_list s.2)).map Prod.snd

/- Open/close tracking (appleib_set_open). -/

/-- The search loop of appleib_set_open: find the first slot that either
holds the given handle or is still unoccupied, and write the open flag
there; -ENODEV if no slot matches. -/
def setOpenLoop (slots : List (Option Nat)) (subOpen : List Bool) (h : Nat) (op : Bool)
    (i : Nat) : Int × List Bool :=
  if hlt : i < slots.length then
    if slots.getD i none = some h ∨ slots.getD i none = none then
      (0, subOpen.set i op)
    else
      setOpenLoop slots subOpen h op (i + 1)
  else
    (-19, subOpen)
termination_by slots.length - i
decreasing_by omega

/-- appleib_set_open: slots is the sub_hdevs array (device handles, none for
an empty slot), subOpen the parallel open-flag array. -/
def appleib_set_open (slots : List (Option Nat)) (subOpen : List Bool) (h : Nat)
    (op : Bool) : Int × List Bool :=
  setOpenLoop slots subOpen h op 0

/- Inbound report fan-out (appleib_hid_raw_event). -/

/-- appleib_hid_raw_event: deliver the report data to every sub-device whose
open flag is set, returning the delivery list (receiving slot index paired
with the bytes delivered to it) in slot order. -/
def appleib_hid_raw_event (subOpen : List Bool) (data : List Nat) : List (Nat × List Nat) :=
  (List.range subOpen.length).filterMap
    (fun i => if subOpen.getD i false then some (i, data) else none)

/- Descriptor fixup (appleib_report_fixup). -/

/-- First byte-pattern signature of appleib_report_fixup: total length 634,
Usage Page 0xff12 at offset 212, Usage 0x51 at offset 416, Report Size 64 at
offset 432, Report Count 1 at offset 434. -/
def fixupCond1 (r : List Nat) : Bool :=
  r.length == 634 &&
    (r.getD 212 0 == 0x06 && r.getD 213 0 == 0x12 && r.getD 214 0 == 0xff) &&
    (r.getD 416 0 == 0x09 && r.getD 417 0 == 0x51) &&
    (r.getD 432 0 == 0x75 && r.getD 433 0 == 64) &&
    (r.getD 434 0 == 0x95 && r.getD 435 0 == 1)

/-- Second byte-pattern signature of appleib_report_fixup: total length 634,
Usage Page 0xff12 at offset 212, Usage 0x51 at offset 611, Report Size 64 at
offset 627, Report Count 1 at offset 629. -/
def fixupCond2 (r : List Nat) : Bool :=
  r.length == 634 &&
    (r.getD 212 0 == 0x06 && r.getD 213 0 == 0x12 && r.getD 214 0 == 0xff) &&
    (r.getD 611 0 == 0x09 && r.getD 612 0 == 0x51) &&
    (r.getD 627 0 == 0x75 && r.getD 628 0 == 64) &&
    (r.getD 629 0 == 0x95 && r.getD 630 0 == 1)

/-- appleib_report_fixup: when a signature matches, the report-size byte is
rewritten from 64 to 32 and the report-count byte from 1 to 2 (turning one
illegal 64-bit field into two 32-bit fields); non-matching buffers pass
through unchanged. -/
def appleib_report_fixup (r : List Nat) : List Nat :=
  let r1 := if fixupCond1 r then (r.set 433 32).set 435 2 else r
  if fixupCond2 r1 then (r1.set 628 32).set 630 2 else r1

/- Suspend/resume forwarding. -/

/-- The forwarding loop of hid-appleib.c (appleib_forward_func): walk the
sub-devices in slot order, calling the consumer driver's callback on each
(the list holds each callback's return value), and stop at the first nonzero
result. Returns the number of callbacks invoked and the overall result. -/
def appleib_forward_func : List Int → Nat × Int
  | [] => (0, 0)
  | r :: rest =>
    if r = 0 then ((appleib_forward_func rest).1 + 1, (appleib_forward_func rest).2)
    else (1, r)

/-- The forwarding loop of apple-ibridge.c (appleib_forward_int_op), as
written: for each sub-device (paired flag: does a consumer driver sit on it;
value: its callback's return), call the callback if a driver is bound, then
break unconditionally at the end of the first iteration. Returns the number
of callbacks invoked and the overall result. -/
def appleib_forward_int_op : List (Bool × Int) → Nat × Int
  | [] => (0, 0)
  | (hasDriver, r) :: _ => if hasDriver then (1, r) else (0, 0)

/- ===== Theorems ===== -/

theorem hid_fetch_item_length {bytes rest : List Nat} {item : HidItem}
    (h : hid_fetch_item bytes = some (item, rest)) : rest.length < bytes.length := by
  rcases bytes with - | ⟨b, r⟩
  · simp [hid_fetch_item] at h
  · simp only [hid_fetch_item] at h
    repeat' split at h
    all_goals
      try (simp only [Option.some.injEq, Prod.mk.injEq] at h
           obtain ⟨-, h2⟩ := h
           subst h2
           simp only [List.length_cons, List.length_drop]
           omega)
    all_goals exact absurd h (by simp)

theorem fetch_encode0 (type tag : Nat) (ht : type < 4) (hg : tag < 15) (rest : List Nat) :
    hid_fetch_item ((tag * 16 + type * 4 + 0) :: rest) =
      some (⟨type, tag, 0, dataVal []⟩, rest) := by
  have e1 : (tag * 16 + type * 4 + 0) >>> 4 = tag := by
    simp only [Nat.shiftRight_eq_div_pow]
    omega
  have e2 : (tag * 16 + type * 4 + 0) >>> 2 = tag * 4 + type := by
    simp only [Nat.shiftRight_eq_div_pow]
    omega
  simp only [hid_fetch_item, e1, e2]
  rw [if_neg (by omega), if_pos (by omega)]
  simp only [dataVal, Option.some.injEq, Prod.mk.injEq, HidItem.mk.injEq]
  refine ⟨⟨?_, ?_, ?_, ?_⟩, ?_⟩ <;> first | trivial | omega

theorem fetch_encode1 (type tag d0 : Nat) (ht : type < 4) (hg : tag < 15) (rest : List Nat) :
    hid_fetch_item ((tag * 16 + type * 4 + 1) :: d0 :: rest) =
      some (⟨type, tag, 1, dataVal [d0]⟩, rest) := by
  have e1 : (tag * 16 + type * 4 + 1) >>> 4 = tag := by
    simp only [Nat.shiftRight_eq_div_pow]
    omega
  have e2 : (tag * 16 + type * 4 + 1) >>> 2 = tag * 4 + type := by
    simp only [Nat.shiftRight_eq_div_pow]
    omega
  simp only [hid_fetch_item, e1, e2]
  rw [if_neg (by omega), if_neg (by omega), if_pos (by omega)]
  simp only [dataVal, Option.some.injEq, Prod.mk.injEq, HidItem.mk.injEq]
  refine ⟨⟨?_, ?_, ?_, ?_⟩, ?_⟩ <;> first | trivial | omega

theorem fetch_encode2 (type tag d0 d1 : Nat) (ht : type < 4) (hg : tag < 15)
    (rest : List Nat) :
    hid_fetch_item ((tag * 16 + type * 4 + 2) :: d0 :: d1 :: rest) =
      some (⟨type, tag, 2, dataVal [d0, d1]⟩, rest) := by
  have e1 : (tag * 16 + type * 4 + 2) >>> 4 = tag := by
    simp only [Nat.shiftRight_eq_div_pow]
    omega
  have e2 : (tag * 16 + type * 4 + 2) >>> 2 = tag * 4 + type := by
    simp only [Nat.shiftRight_eq_div_pow]
    omega
  simp only [hid_fetch_item, e1, e2]
  rw [if_neg (by omega), if_neg (by omega), if_neg (by omega), if_pos (by omega)]
  simp only [dataVal, Option.some.injEq, Prod.mk.injEq, HidItem.mk.injEq]
  refine ⟨⟨?_, ?_, ?_, ?_⟩, ?_⟩ <;> first | trivial | omega

theorem fetch_encode4 (type tag d0 d1 d2 d3 : Nat) (ht : type < 4) (hg : tag < 15)
    (rest : List Nat) :
    hid_fetch_item ((tag * 16 + type * 4 + 3) :: d0 :: d1 :: d2 :: d3 :: rest) =
      some (⟨type, tag, 4, dataVal [d0, d1, d2, d3]⟩, rest) := by
  have e1 : (tag * 16 + type * 4 + 3) >>> 4 = tag := by
    simp only [Nat.shiftRight_eq_div_pow]
    omega
  have e2 : (tag * 16 + type * 4 + 3) >>> 2 = tag * 4 + type := by
    simp only [Nat.shiftRight_eq_div_pow]
    omega
  simp only [hid_fetch_item, e1, e2]
  rw [if_neg (by omega), if_neg (by omega), if_neg (by omega), if_neg (by omega)]
  simp only [dataVal, Option.some.injEq, Prod.mk.injEq, HidItem.mk.injEq]
  refine ⟨⟨?_, ?_, ?_, ?_⟩, ?_⟩ <;> first | trivial | omega

theorem hid_fetch_item_encode (it : RawItem) (rest : List Nat) (h : wfItem it = true) :
    hid_fetch_item (encodeItem it ++ rest) = some (toHidItem it, rest) := by
  obtain ⟨type, tag, data⟩ := it
  simp only [wfItem, Bool.and_eq_true, Bool.or_eq_true, decide_eq_true_eq, beq_iff_eq] at h
  obtain ⟨⟨ht, hg⟩, hs⟩ := h
  rcases data with - | ⟨d0, - | ⟨d1, - | ⟨d2, - | ⟨d3, - | ⟨d4, drest⟩⟩⟩⟩⟩ <;>
    simp only [List.length_nil, List.length_cons] at hs
  · simp only [encodeItem, toHidItem, List.length_nil, List.cons_append, List.nil_append]
    norm_num [sizeCode]
    exact fetch_encode0 type tag ht hg rest
  · simp only [encodeItem, toHidItem, List.length_cons, List.length_nil, List.cons_append,
      List.nil_append]
    norm_num [sizeCode]
    exact fetch_encode1 type tag d0 ht hg rest
  · simp only [encodeItem, toHidItem, List.length_cons, List.length_nil, List.cons_append,
      List.nil_append]
    norm_num [sizeCode]
    exact fetch_encode2 type tag d0 d1 ht hg rest
  · omega
  · simp only [encodeItem, toHidItem, List.length_cons, List.length_nil, List.cons_append,
      List.nil_append]
    norm_num [sizeCode]
    exact fetch_encode4 type tag d0 d1 d2 d3 ht hg rest
  · omega

theorem findCollectionAux_fetch_none {bytes : List Nat} (hf : hid_fetch_item bytes = none)
    (d : Int) (u : Nat) : findCollectionAux bytes d u = (u, []) := by
  rw [findCollectionAux]
  split
  · rfl
  · rename_i item rest heq
    rw [hf] at heq
    simp at heq

theorem findCollectionAux_encode (it : RawItem) (tail : List Nat) (h : wfItem it = true)
    (d : Int) (u : Nat) :
    findCollectionAux (encodeItem it ++ tail) d u =
      (if it.type = 0 then
        if it.tag = 10 then findCollectionAux tail (d + 1) u
        else if it.tag = 12 then
          if d - 1 ≤ 0 then (u, tail) else findCollectionAux tail (d - 1) u
        else findCollectionAux tail d u
      else if it.type = 1 ∧ it.tag = 0 ∧ d = 0 then
        findCollectionAux tail d (u % 65536 + hid_item_udata (toHidItem it) % 65536 * 65536)
      else if it.type = 2 ∧ it.tag = 0 ∧ d = 0 then
        findCollectionAux tail d
          (u / 65536 % 65536 * 65536 + hid_item_udata (toHidItem it) % 65536)
      else findCollectionAux tail d u) := by
  conv_lhs => rw [findCollectionAux]
  split
  · rename_i heq
    rw [hid_fetch_item_encode it tail h] at heq
    simp at heq
  · rename_i item rest heq
    rw [hid_fetch_item_encode it tail h] at heq
    simp only [Option.some.injEq, Prod.mk.injEq] at heq
    obtain ⟨h1, h2⟩ := heq
    subst h1
    subst h2
    simp only [toHidItem, HID_ITEM_TYPE_MAIN, HID_ITEM_TYPE_GLOBAL, HID_ITEM_TYPE_LOCAL,
      HID_MAIN_ITEM_TAG_BEGIN_COLLECTION, HID_MAIN_ITEM_TAG_END_COLLECTION,
      HID_GLOBAL_ITEM_TAG_USAGE_PAGE, HID_LOCAL_ITEM_TAG_USAGE]

theorem findCollectionAux_body (body : List RawItem) :
    ∀ (d : Int) (u : Nat) (tail : List Nat),
      body.all wfItem = true → staysAbove d body = true → 1 ≤ d →
      findCollectionAux (encodeList body ++ tail) d u =
        findCollectionAux tail (d + netList body) u := by
  induction body with
  | nil =>
    intro d u tail _ _ _
    simp [encodeList, netList]
  | cons it rest ih =>
    intro d u tail hwf hst hd
    simp only [List.all_cons, Bool.and_eq_true] at hwf
    simp only [staysAbove, Bool.and_eq_true, decide_eq_true_eq] at hst
    obtain ⟨hst1, hst2⟩ := hst
    have hb : encodeList (it :: rest) ++ tail = encodeItem it ++ (encodeList rest ++ tail) := by
      simp [encodeList]
    rw [hb, findCollectionAux_encode it _ hwf.1]
    by_cases h0 : it.type = 0
    · by_cases h10 : it.tag = 10
      · have hn : netItem it = 1 := by simp [netItem, h0, h10]
        rw [hn] at hst1 hst2
        rw [if_pos h0, if_pos h10, ih (d + 1) u _ hwf.2 hst2 (by omega)]
        congr 1
        simp only [netList, hn]
        ring
      · by_cases h12 : it.tag = 12
        · have hn : netItem it = -1 := by simp [netItem, h0, h10, h12]
          rw [hn] at hst1 hst2
          rw [if_pos h0, if_neg h10, if_pos h12, if_neg (by omega),
            ih (d - 1) u _ hwf.2 (by rwa [show d + -1 = d - 1 from by ring] at hst2) (by omega)]
          congr 1
          simp only [netList, hn]
          ring
        · have hn : netItem it = 0 := by simp [netItem, h0, h10, h12]
          rw [hn, add_zero] at hst2
          rw [if_pos h0, if_neg h10, if_neg h12, ih d u _ hwf.2 hst2 hd]
          congr 1
          simp only [netList, hn]
          ring
    · have hn : netItem it = 0 := by simp [netItem, h0]
      rw [hn, add_zero] at hst2
      rw [if_neg h0, if_neg (by rintro ⟨-, -, hd0⟩; omega),
        if_neg (by rintro ⟨-, -, hd0⟩; omega), ih d u _ hwf.2 hst2 hd]
      congr 1
      simp only [netList, hn]
      ring

theorem findCollectionAux_pre (pre : List RawItem) :
    ∀ (u : Nat) (tail : List Nat),
      pre.all (fun it => wfItem it && isPreItem it) = true →
      findCollectionAux (encodeList pre ++ tail) 0 u =
        findCollectionAux tail 0 (pre.foldl (fun a it => usageStep it a) u) := by
  induction pre with
  | nil =>
    intro u tail _
    simp [encodeList]
  | cons it rest ih =>
    intro u tail hwf
    simp only [List.all_cons, Bool.and_eq_true] at hwf
    obtain ⟨⟨hw, hp⟩, hrest⟩ := hwf
    have hp' : ¬(it.type = 0 ∧ (it.tag = 10 ∨ it.tag = 12)) := by
      intro hcon
      rcases hcon.2 with hh | hh <;> simp [isPreItem, hcon.1, hh] at hp
    have hb : encodeList (it :: rest) ++ tail = encodeItem it ++ (encodeList rest ++ tail) := by
      simp [encodeList]
    rw [hb, findCollectionAux_encode it _ hw]
    by_cases h0 : it.type = 0
    · have h10 : ¬ it.tag = 10 := fun hh => hp' ⟨h0, Or.inl hh⟩
      have h12 : ¬ it.tag = 12 := fun hh => hp' ⟨h0, Or.inr hh⟩
      rw [if_pos h0, if_neg h10, if_neg h12, ih u tail hrest]
      have hu : usageStep it u = u := by
        simp only [usageStep]
        rw [if_neg (by rintro ⟨h1, -⟩; omega), if_neg (by rintro ⟨h2, -⟩; omega)]
      simp [List.foldl_cons, hu]
    · by_cases hg : it.type = 1 ∧ it.tag = 0
      · rw [if_neg h0, if_pos ⟨hg.1, hg.2, rfl⟩, ih _ tail hrest]
        have hu : usageStep it u = u % 65536 + hid_item_udata (toHidItem it) % 65536 * 65536 := by
          simp only [usageStep]
          rw [if_pos hg]
        simp [List.foldl_cons, hu]
      · by_cases hl : it.type = 2 ∧ it.tag = 0
        · rw [if_neg h0, if_neg (by rintro ⟨h1, h2, -⟩; exact hg ⟨h1, h2⟩),
            if_pos ⟨hl.1, hl.2, rfl⟩, ih _ tail hrest]
          have hu : usageStep it u =
              u / 65536 % 65536 * 65536 + hid_item_udata (toHidItem it) % 65536 := by
            simp only [usageStep]
            rw [if_neg (by rintro ⟨h1, -⟩; omega), if_pos hl]
          simp [List.foldl_cons, hu]
        · rw [if_neg h0, if_neg (by rintro ⟨h1, h2, -⟩; exact hg ⟨h1, h2⟩),
            if_neg (by rintro ⟨h1, h2, -⟩; exact hl ⟨h1, h2⟩), ih _ tail hrest]
          have hu : usageStep it u = u := by
            simp only [usageStep]
            rw [if_neg hg, if_neg hl]
          simp [List.foldl_cons, hu]

/-- Scanning a well-formed top-level collection followed by any further bytes
consumes exactly the collection's segment and returns the usage accumulated
from its depth-0 items. -/
theorem find_collection_segment (t : TLC) (tail : List Nat) (h : wfTLC t = true) :
    appleib_find_collection (TLC.bytes t ++ tail) = (TLC.usage t, tail) := by
  obtain ⟨pre, bIt, body, eIt⟩ := t
  simp only [wfTLC, Bool.and_eq_true, beq_iff_eq] at h
  obtain ⟨⟨⟨hpre, hbeg⟩, hbody⟩, hend⟩ := h
  simp only [TLC.bytes, TLC.usage, appleib_find_collection, List.append_assoc]
  rw [findCollectionAux_pre pre _ _ hpre]
  rw [findCollectionAux_encode bIt _ hbeg.1]
  rw [if_pos hbeg.2.1, if_pos hbeg.2.2]
  have hnet : netList body = 0 := hbody.2.2
  rw [findCollectionAux_body body _ _ _ hbody.1 (by rw [zero_add]; exact hbody.2.1) (by omega)]
  rw [findCollectionAux_encode eIt _ hend.1]
  rw [if_pos hend.2.1, if_neg (by rw [hend.2.2]; omega), if_pos hend.2.2,
    if_pos (by rw [hnet]; norm_num)]

theorem findCollectionAux_fetch_some {bytes rest : List Nat} {item : HidItem}
    (hf : hid_fetch_item bytes = some (item, rest)) (d : Int) (u : Nat) :
    findCollectionAux bytes d u =
      (if item.type = 0 then
        if item.tag = 10 then findCollectionAux rest (d + 1) u
        else if item.tag = 12 then
          if d - 1 ≤ 0 then (u, rest) else findCollectionAux rest (d - 1) u
        else findCollectionAux rest d u
      else if item.type = 1 ∧ item.tag = 0 ∧ d = 0 then
        findCollectionAux rest d (u % 65536 + hid_item_udata item % 65536 * 65536)
      else if item.type = 2 ∧ item.tag = 0 ∧ d = 0 then
        findCollectionAux rest d (u / 65536 % 65536 * 65536 + hid_item_udata item % 65536)
      else findCollectionAux rest d u) := by
  conv_lhs => rw [findCollectionAux]
  split
  · rename_i heq
    rw [hf] at heq
    simp at heq
  · rename_i item2 rest2 heq
    rw [hf] at heq
    simp only [Option.some.injEq, Prod.mk.injEq] at heq
    obtain ⟨h1, h2⟩ := heq
    subst h1
    subst h2
    simp only [HID_ITEM_TYPE_MAIN, HID_ITEM_TYPE_GLOBAL, HID_ITEM_TYPE_LOCAL,
      HID_MAIN_ITEM_TAG_BEGIN_COLLECTION, HID_MAIN_ITEM_TAG_END_COLLECTION,
      HID_GLOBAL_ITEM_TAG_USAGE_PAGE, HID_LOCAL_ITEM_TAG_USAGE]

theorem findCollectionAux_rest :
    ∀ (n : Nat) (bytes : List Nat), bytes.length ≤ n → ∀ (d : Int) (u : Nat),
      (findCollectionAux bytes d u).2 = [] ∨
        (findCollectionAux bytes d u).2.length < bytes.length := by
  intro n
  induction n with
  | zero =>
    intro bytes hlen d u
    have hb : bytes = [] := by
      cases bytes
      · rfl
      · simp at hlen
    subst hb
    rw [findCollectionAux_fetch_none (by simp [hid_fetch_item])]
    left
    rfl
  | succ n ihn =>
    intro bytes hlen d u
    rcases hfetch : hid_fetch_item bytes with - | ⟨item, rest⟩
    · rw [findCollectionAux_fetch_none hfetch]
      left
      rfl
    · have hlt := hid_fetch_item_length hfetch
      have hr : rest.length ≤ n := by omega
      have key : ∀ (d' : Int) (u' : Nat), (findCollectionAux rest d' u').2 = [] ∨
          (findCollectionAux rest d' u').2.length < bytes.length := by
        intro d' u'
        obtain h | h := ihn rest hr d' u'
        · left; exact h
        · right; omega
      rw [findCollectionAux_fetch_some hfetch]
      split_ifs <;> first | exact key _ _ | (right; simpa using hlt)

theorem find_collection_rest (bytes : List Nat) :
    (appleib_find_collection bytes).2 = [] ∨
      (appleib_find_collection bytes).2.length < bytes.length :=
  findCollectionAux_rest bytes.length bytes le_rfl 0 0

theorem scanSegmentsAux_fuel :
    ∀ (f : Nat) (bytes : List Nat), bytes.length < f →
      scanSegmentsAux f bytes = scanSegmentsAux (bytes.length + 1) bytes := by
  intro f
  induction f using Nat.strong_induction_on with
  | _ f ih =>
    intro bytes hf
    match f, hf with
    | f + 1, hf =>
      simp only [scanSegmentsAux]
      by_cases hr : (appleib_find_collection bytes).2 = []
      · simp [hr]
      · have hlen : (appleib_find_collection bytes).2.length < bytes.length := by
          obtain h | h := find_collection_rest bytes
          · exact absurd h hr
          · exact h
        simp only [hr, if_false]
        congr 1
        rw [ih f (by omega) _ (by omega), ih bytes.length (by omega) _ (by omega)]

theorem scanSegments_unfold (bytes : List Nat) :
    scanSegments bytes =
      (if (appleib_find_collection bytes).2 = []
       then [(bytes.take (bytes.length - (appleib_find_collection bytes).2.length),
              (appleib_find_collection bytes).1)]
       else (bytes.take (bytes.length - (appleib_find_collection bytes).2.length),
              (appleib_find_collection bytes).1) ::
             scanSegments (appleib_find_collection bytes).2) := by
  simp only [scanSegments, scanSegmentsAux]
  by_cases hr : (appleib_find_collection bytes).2 = []
  · simp [hr]
  · have hlen : (appleib_find_collection bytes).2.length < bytes.length := by
      obtain h | h := find_collection_rest bytes
      · exact absurd h hr
      · exact h
    simp only [hr, if_false]
    congr 1
    exact scanSegmentsAux_fuel bytes.length _ (by omega)

/-- One loop iteration over a well-formed top-level collection: the Scanner
splits off exactly its segment, and scanning resumes at the remainder. -/
theorem scanSegments_TLC (t : TLC) (rest : List Nat) (h : wfTLC t = true) :
    scanSegments (TLC.bytes t ++ rest) =
      (TLC.bytes t, TLC.usage t) :: (if rest = [] then [] else scanSegments rest) := by
  rw [scanSegments_unfold, find_collection_segment t rest h]
  have hlen : (TLC.bytes t ++ rest).length - rest.length = (TLC.bytes t).length := by
    simp [List.length_append]
  by_cases hr : rest = []
  · subst hr
    simp
  · rw [if_neg hr, if_neg hr, hlen, List.take_left]

theorem TLC_bytes_ne_nil (t : TLC) : TLC.bytes t ≠ [] := by
  obtain ⟨pre, bIt, body, eIt⟩ := t
  simp [TLC.bytes, encodeItem]

theorem flatten_TLC_ne_nil (t : TLC) (rest : List TLC) :
    ((t :: rest).map TLC.bytes).flatten ≠ [] := by
  simp only [List.map_cons, List.flatten_cons]
  intro h
  rw [List.append_eq_nil] at h
  exact TLC_bytes_ne_nil t h.1

/-- Scanning the concatenation of well-formed top-level collections yields
exactly one (segment, usage) pair per collection, in order. -/
theorem scanSegments_concat (ts : List TLC) :
    ts ≠ [] → ts.all wfTLC = true →
    scanSegments ((ts.map TLC.bytes).flatten) =
      ts.map (fun t => (TLC.bytes t, TLC.usage t)) := by
  induction ts with
  | nil =>
    intro h
    exact absurd rfl h
  | cons t rest ih =>
    intro _ hwf
    simp only [List.all_cons, Bool.and_eq_true] at hwf
    simp only [List.map_cons, List.flatten_cons]
    rw [scanSegments_TLC t _ hwf.1]
    by_cases hr : rest = []
    · subst hr
      simp
    · have hne : (rest.map TLC.bytes).flatten ≠ [] := by
        rcases rest with - | ⟨t2, rest2⟩
        · exact absurd rfl hr
        · exact flatten_TLC_ne_nil t2 rest2
      rw [if_neg hne, ih hr hwf.2]

/- Helper lemmas about list update and default lookup. -/

theorem getD_set_ne {α : Type} (l : List α) {i j : Nat} (a d : α) (h : ¬ i = j) :
    (l.set i a).getD j d = l.getD j d := by
  simp [List.getD_eq_getElem?_getD, List.getElem?_set_ne h]

theorem getD_set_self {α : Type} (l : List α) {i : Nat} (a d : α) (h : i < l.length) :
    (l.set i a).getD i d = a := by
  simp [List.getD_eq_getElem?_getD, List.getElem?_set_eq_of_lt a h]

/-- Rolling back slots 0..i-1 destroys every registered device, provided
every registered identifier sits in one of those slots. -/
theorem rollback_registered (slots : List (Option (Nat × Nat))) :
    ∀ (i : Nat) (env : HidEnv),
      (∀ x ∈ env.registered, ∃ j, j < i ∧ ∃ u, slots.getD j none = some (x, u)) →
      (rollback slots i env).registered = [] := by
  intro i
  induction i with
  | zero =>
    intro env hsub
    have henv : env.registered = [] := by
      rcases hmem : env.registered with - | ⟨x, xs⟩
      · rfl
      · exfalso
        obtain ⟨j, hj, -⟩ := hsub x (by rw [hmem]; exact List.mem_cons_self x xs)
        omega
    simpa [rollback] using henv
  | succ j ihj =>
    intro env hsub
    simp only [rollback]
    rcases hslot : slots.getD j none with - | ⟨id, u⟩
    · apply ihj
      intro x hx
      obtain ⟨k, hk, w, hw⟩ := hsub x hx
      rcases Nat.lt_succ_iff_lt_or_eq.mp hk with hk' | hk'
      · exact ⟨k, hk', w, hw⟩
      · subst hk'
        rw [hslot] at hw
        cases hw
    · apply ihj
      intro x hx
      simp only [hid_destroy_device, List.mem_filter, bne_iff_ne, ne_eq,
        decide_eq_true_eq] at hx
      obtain ⟨hxmem, hxne⟩ := hx
      obtain ⟨k, hk, w, hw⟩ := hsub x hxmem
      rcases Nat.lt_succ_iff_lt_or_eq.mp hk with hk' | hk'
      · exact ⟨k, hk', w, hw⟩
      · subst hk'
        rw [hslot] at hw
        simp only [Option.some.injEq, Prod.mk.injEq] at hw
        exact absurd hw.1.symm hxne

/-- If the creation loop fails, the loop destroys every virtual device it
registered before surfacing the error: the registration list comes back
empty, provided every initially registered identifier sits in an
already-filled slot below i. -/
theorem processSegs_error_rollback (fail : Nat → Option Int)
    (segs : List (List Nat × Nat)) :
    ∀ (i : Nat) (slots : List (Option (Nat × Nat))) (env : HidEnv),
      (∀ x ∈ env.registered, ∃ j, j < i ∧ ∃ u, slots.getD j none = some (x, u)) →
      ∀ (e : Int),
        (processSegs fail segs i slots env).1 = .error e →
        (processSegs fail segs i slots env).2.2.registered = [] := by
  induction segs with
  | nil =>
    intro i slots env hinv e herr
    simp [processSegs] at herr
  | cons sg rest ih =>
    intro i slots env hinv e herr
    obtain ⟨sgbytes, usage⟩ := sg
    simp only [processSegs] at herr ⊢
    by_cases h1 : appleib_usage_in_list usage = false
    · rw [if_pos h1] at herr ⊢
      exact ih i slots env hinv e herr
    · rw [if_neg h1] at herr ⊢
      by_cases h2 : slots.length ≤ i
      · rw [if_pos h2] at herr ⊢
        exact ih i slots env hinv e herr
      · rw [if_neg h2] at herr ⊢
        rcases hfail : fail i with - | e2
        · simp only [hfail, appleib_add_sub_dev] at herr ⊢
          apply ih (i + 1) _ _ ?_ e herr
          intro x hx
          simp only [List.mem_append, List.mem_singleton] at hx
          rcases hx with hx | hx
          · obtain ⟨j, hj, w, hw⟩ := hinv x hx
            refine ⟨j, by omega, w, ?_⟩
            rw [getD_set_ne _ _ _ (by omega)]
            exact hw
          · subst hx
            refine ⟨i, by omega, usage, ?_⟩
            exact getD_set_self _ _ _ (by omega)
        · simp only [hfail, appleib_add_sub_dev] at herr ⊢
          exact rollback_registered slots i env hinv

theorem slotUsages_front (front : List (Nat × Nat)) (k : Nat) :
    slotUsages (front.map some ++ List.replicate k none) = front.map Prod.snd := by
  induction front with
  | nil =>
    simp only [List.map_nil, List.nil_append, slotUsages]
    induction k with
    | zero => rfl
    | succ k ihk => simp [List.replicate_succ, ihk]
  | cons p front ihf =>
    simp [slotUsages, List.filterMap_cons, ihf]

theorem slotIds_front (front : List (Nat × Nat)) (k : Nat) :
    slotIds (front.map some ++ List.replicate k none) = front.map Prod.fst := by
  induction front with
  | nil =>
    simp only [List.map_nil, List.nil_append, slotIds]
    induction k with
    | zero => rfl
    | succ k ihk => simp [List.replicate_succ, ihk]
  | cons p front ihf =>
    simp [slotIds, List.filterMap_cons, ihf]

theorem set_front_boundary (front : List (Nat × Nat)) (k : Nat) (v : Nat × Nat) :
    (front.map some ++ List.replicate (k + 1) none).set front.length (some v) =
      (front ++ [v]).map some ++ List.replicate k none := by
  induction front with
  | nil => simp [List.replicate_succ]
  | cons p front ihf =>
    simp [List.replicate_succ, ihf]

/-- With a never-failing factory, the creation loop succeeds and fills the
free slots with the usages of the first recognized segments, in scan order,
skipping unrecognized segments and everything beyond capacity. -/
theorem processSegs_ok_usages (fail : Nat → Option Int) (hfail : ∀ j, fail j = none)
    (segs : List (List Nat × Nat)) :
    ∀ (front : List (Nat × Nat)) (k : Nat) (env : HidEnv),
      (processSegs fail segs front.length (front.map some ++ List.replicate k none) env).1 =
        .ok () ∧
      slotUsages
        ((processSegs fail segs front.length
            (front.map some ++ List.replicate k none) env).2.1) =
        front.map Prod.snd ++ (recogUsages segs).take k := by
  induction segs with
  | nil =>
    intro front k env
    simp [processSegs, recogUsages, slotUsages_front]
  | cons sg rest ih =>
    intro front k env
    obtain ⟨sgb, usage⟩ := sg
    simp only [processSegs]
    by_cases h1 : appleib_usage_in_list usage = false
    · rw [if_pos h1]
      refine ⟨(ih front k env).1, ?_⟩
      rw [(ih front k env).2]
      simp [recogUsages, List.filter_cons, h1]
    · have ht : appleib_usage_in_list usage = true := by
        cases hcase : appleib_usage_in_list usage
        · exact absurd hcase h1
        · rfl
      rw [if_neg h1]
      by_cases h2 : (front.map some ++ List.replicate k none).length ≤ front.length
      · have hk0 : k = 0 := by
          simp only [List.length_append, List.length_map, List.length_replicate] at h2
          omega
        rw [if_pos h2]
        refine ⟨(ih front k env).1, ?_⟩
        rw [(ih front k env).2, hk0]
        simp
      · have hkpos : 0 < k := by
          simp only [List.length_append, List.length_map, List.length_replicate] at h2
          omega
        rcases k with - | k
        · omega
        rw [if_neg h2]
        simp only [hfail front.length, appleib_add_sub_dev]
        rw [set_front_boundary front k (env.nextId, usage)]
        have hil : front.length + 1 = (front ++ [(env.nextId, usage)]).length := by simp
        rw [hil]
        refine ⟨(ih (front ++ [(env.nextId, usage)]) k _).1, ?_⟩
        rw [(ih (front ++ [(env.nextId, usage)]) k _).2]
        simp [recogUsages, List.filter_cons, ht]

/-- Whatever the factory does, the slot array keeps the shape
"filled slots then free slots", its filled identifiers stay pairwise
distinct, and its total length is preserved. -/
theorem processSegs_slots_shape (fail : Nat → Option Int) (segs : List (List Nat × Nat)) :
    ∀ (front : List (Nat × Nat)) (k : Nat) (env : HidEnv),
      (front.map Prod.fst).Nodup → (∀ p ∈ front, p.1 < env.nextId) →
      ∃ (front' : List (Nat × Nat)) (k' : Nat),
        (processSegs fail segs front.length
            (front.map some ++ List.replicate k none) env).2.1 =
          front'.map some ++ List.replicate k' none ∧
        (front'.map Prod.fst).Nodup ∧
        front'.length + k' = front.length + k := by
  induction segs with
  | nil =>
    intro front k env h1 h2
    exact ⟨front, k, rfl, h1, rfl⟩
  | cons sg rest ih =>
    intro front k env h1 h2
    obtain ⟨sgb, usage⟩ := sg
    simp only [processSegs]
    by_cases hc1 : appleib_usage_in_list usage = false
    · rw [if_pos hc1]
      exact ih front k env h1 h2
    · rw [if_neg hc1]
      by_cases hc2 : (front.map some ++ List.replicate k none).length ≤ front.length
      · rw [if_pos hc2]
        exact ih front k env h1 h2
      · have hkpos : 0 < k := by
          simp only [List.length_append, List.length_map, List.length_replicate] at hc2
          omega
        rcases k with - | k
        · omega
        rw [if_neg hc2]
        rcases hfail : fail front.length with - | e2
        · simp only [appleib_add_sub_dev]
          rw [set_front_boundary front k (env.nextId, usage)]
          have hnodup : ((front ++ [(env.nextId, usage)]).map Prod.fst).Nodup := by
            simp only [List.map_append, List.map_cons, List.map_nil]
            rw [List.nodup_append]
            refine ⟨h1, List.nodup_singleton _, ?_⟩
            intro x hx
            simp only [List.mem_singleton]
            intro hcon
            obtain ⟨p, hp, hpx⟩ := List.mem_map.mp hx
            have := h2 p hp
            omega
          have hbound : ∀ p ∈ front ++ [(env.nextId, usage)], p.1 < env.nextId + 1 := by
            intro p hp
            rcases List.mem_append.mp hp with hp | hp
            · have := h2 p hp
              omega
            · simp only [List.mem_singleton] at hp
              subst hp
              omega
          have hil : front.length + 1 = (front ++ [(env.nextId, usage)]).length := by simp
          rw [hil]
          obtain ⟨front', k', heq, hnd, hlen⟩ :=
            ih (front ++ [(env.nextId, usage)]) k ⟨env.nextId + 1, env.registered ++ [env.nextId]⟩
              hnodup hbound
          refine ⟨front', k', heq, hnd, ?_⟩
          simp only [List.length_append, List.length_cons, List.length_nil] at hlen ⊢
          omega
        · simp only [appleib_add_sub_dev]
          exact ⟨front, k + 1, rfl, h1, rfl⟩

/- Claim-level theorems. -/

/-- C3: the two forwarding loops disagree, and apple-ibridge.c's
appleib_forward_int_op contradicts its own documented contract ("forward to
all drivers ... returns the first error"): with two sub-devices whose second
consumer's suspend callback errors with -5, the loop of hid-appleib.c's
appleib_forward_func invokes both callbacks and returns -5 (first consumer's
suspend stays applied, second's error is the overall result, as the claim
states), while appleib_forward_int_op stops after the first sub-device
because of the unconditional break ending its loop body: it invokes one
callback and returns 0, never reaching the second consumer. -/
theorem C3_forward_first_error :
    appleib_forward_func [0, -5] = (2, -5) ∧
    appleib_forward_int_op [(true, 0), (true, -5)] = (1, 0) := by
  constructor
  · simp [appleib_forward_func]
  · simp [appleib_forward_int_op]

theorem filterMap_ite {α β : Type} (p : α → Bool) (f : α → β) (l : List α) :
    l.filterMap (fun a => if p a then some (f a) else none) = (l.filter p).map f := by
  induction l with
  | nil => rfl
  | cons a l ih =>
    by_cases h : p a <;> simp [List.filterMap_cons, List.filter_cons, h, ih]

theorem count_map_pair (data : List Nat) (l : List Nat) (i : Nat) :
    (l.map (fun j => (j, data))).count (i, data) = l.count i := by
  induction l with
  | nil => rfl
  | cons a l ih =>
    by_cases hai : a = i
    · subst hai
      simp [List.count_cons, ih]
    · simp [List.count_cons, ih, hai]

/-- C4: an inbound raw report is forwarded, byte for byte, exactly once to
every sub-device whose open flag is set at delivery time, and never to a
sub-device whose open flag is clear: slot i receives exactly one copy of the
data when open and zero copies when closed, and every delivery carries the
unmodified data to an open slot. -/
theorem C4_raw_event_fanout (subOpen : List Bool) (data : List Nat) (i : Nat)
    (hi : i < subOpen.length) :
    ((appleib_hid_raw_event subOpen data).count (i, data) =
      if subOpen.getD i false then 1 else 0) ∧
    (∀ p ∈ appleib_hid_raw_event subOpen data, p.2 = data ∧ subOpen.getD p.1 false = true) := by
  constructor
  · rw [show appleib_hid_raw_event subOpen data =
        ((List.range subOpen.length).filter (fun j => subOpen.getD j false)).map
          (fun j => (j, data)) from
      filterMap_ite (fun j => subOpen.getD j false) (fun j => (j, data)) _]
    rw [count_map_pair data _ i]
    by_cases hopen : subOpen.getD i false = true
    · rw [if_pos hopen]
      exact List.count_eq_one_of_mem ((List.nodup_range _).filter _)
        (List.mem_filter.mpr ⟨List.mem_range.mpr hi, hopen⟩)
    · rw [if_neg hopen]
      exact List.count_eq_zero.mpr
        (fun hmem => hopen (List.mem_filter.mp hmem).2)
  · intro p hp
    simp only [appleib_hid_raw_event, List.mem_filterMap] at hp
    obtain ⟨j, -, hj⟩ := hp
    by_cases hopen : subOpen.getD j false = true
    · rw [if_pos hopen] at hj
      cases hj
      exact ⟨rfl, hopen⟩
    · rw [if_neg hopen] at hj
      cases hj

/-- C4 witness: with open flags [true, false], slot 0 receives the report
exactly once, slot 1 receives nothing, and every delivery carries the
original bytes to an open slot. -/
theorem C4_raw_event_fanout_witness :
    ((appleib_hid_raw_event [true, false] [7, 9]).count (0, [7, 9]) = 1) ∧
    ((appleib_hid_raw_event [true, false] [7, 9]).count (1, [7, 9]) = 0) ∧
    (∀ p ∈ appleib_hid_raw_event [true, false] [7, 9],
      p.2 = [7, 9] ∧ [true, false].getD p.1 false = true) := by
  refine ⟨?_, ?_, (C4_raw_event_fanout [true, false] [7, 9] 0 (by decide)).2⟩
  · have h := (C4_raw_event_fanout [true, false] [7, 9] 0 (by decide)).1
    simpa using h
  · have h := (C4_raw_event_fanout [true, false] [7, 9] 1 (by decide)).1
    simpa using h

theorem setOpenLoop_first (slots : List (Option Nat)) (subOpen : List Bool) (h : Nat)
    (op : Bool) (i0 : Nat) (hlt : i0 < slots.length)
    (hmatch : slots.getD i0 none = some h ∨ slots.getD i0 none = none) :
    ∀ (m i : Nat), i0 - i ≤ m → i ≤ i0 →
      (∀ j, i ≤ j → j < i0 → ¬(slots.getD j none = some h ∨ slots.getD j none = none)) →
      setOpenLoop slots subOpen h op i = (0, subOpen.set i0 op) := by
  intro m
  induction m with
  | zero =>
    intro i hm hle hnone
    have hii : i = i0 := by omega
    subst hii
    rw [setOpenLoop, dif_pos hlt, if_pos hmatch]
  | succ n ihn =>
    intro i hm hle hnone
    by_cases heq : i = i0
    · subst heq
      rw [setOpenLoop, dif_pos hlt, if_pos hmatch]
    · have hilt : i < slots.length := by omega
      rw [setOpenLoop, dif_pos hilt, if_neg (hnone i le_rfl (by omega))]
      exact ihn (i + 1) (by omega) (by omega) (fun j hj1 hj2 => hnone j (by omega) hj2)

/-- C6: an open call for a handle that is not in the sub-device table records
the open flag against the first unoccupied slot and returns success (the
callback that fires during registration, before the table entry is written,
is accommodated instead of rejected); a close call for a known handle whose
preceding slots are all occupied by other handles clears that handle's
flag. -/
theorem C6_set_open (slots : List (Option Nat)) (subOpen : List Bool) (h : Nat) :
    ((∀ j, j < slots.length → slots.getD j none ≠ some h) →
      ∀ i0, i0 < slots.length → slots.getD i0 none = none →
      (∀ j, j < i0 → slots.getD j none ≠ none) →
      appleib_set_open slots subOpen h true = (0, subOpen.set i0 true)) ∧
    (∀ i0, i0 < slots.length → slots.getD i0 none = some h →
      (∀ j, j < i0 → slots.getD j none ≠ some h ∧ slots.getD j none ≠ none) →
      appleib_set_open slots subOpen h false = (0, subOpen.set i0 false)) := by
  constructor
  · intro hunk i0 hlt hempty hocc
    exact setOpenLoop_first slots subOpen h true i0 hlt (Or.inr hempty) i0 0 (by omega)
      (by omega)
      (fun j hj1 hj2 hcon => hcon.elim (hunk j (by omega)) (hocc j hj2))
  · intro i0 hlt hfound hprev
    exact setOpenLoop_first slots subOpen h false i0 hlt (Or.inl hfound) i0 0 (by omega)
      (by omega)
      (fun j hj1 hj2 hcon => hcon.elim (hprev j hj2).1 (hprev j hj2).2)

/-- C6 witness: opening unknown handle 7 while slot 1 is still unoccupied
records the flag in slot 1 and succeeds; closing known handle 7 clears its
own slot's flag. -/
theorem C6_set_open_witness :
    appleib_set_open [some 5, none] [false, false] 7 true = (0, [false, true]) ∧
    appleib_set_open [some 5, some 7] [true, true] 7 false = (0, [true, false]) := by
  constructor
  · have h := (C6_set_open [some 5, none] [false, false] 7).1
      (by decide) 1 (by decide) (by decide) (by decide)
    simpa using h
  · have h := (C6_set_open [some 5, some 7] [true, true] 7).2
      1 (by decide) (by decide) (by decide)
    simpa using h

theorem getD_set_ne_decide {α : Type} (l : List α) {i j : Nat} (a d : α)
    (h : decide (i = j) = false) : (l.set i a).getD j d = l.getD j d :=
  getD_set_ne l a d (by simpa using h)

theorem fixupCond1_set_other (x : List Nat) :
    fixupCond1 ((x.set 628 32).set 630 2) = fixupCond1 x := by
  simp [fixupCond1, List.length_set, getD_set_ne_decide]

theorem fixupCond2_set_first (x : List Nat) :
    fixupCond2 ((x.set 433 32).set 435 2) = fixupCond2 x := by
  simp [fixupCond2, List.length_set, getD_set_ne_decide]

theorem fixupCond1_after_fix (x : List Nat) (h : fixupCond1 x = true) :
    fixupCond1 ((x.set 433 32).set 435 2) = false := by
  have hlen : x.length = 634 := by
    simp only [fixupCond1, Bool.and_eq_true, beq_iff_eq] at h
    exact h.1.1.1.1
  have h433 : ((x.set 433 32).set 435 2).getD 433 0 = 32 := by
    rw [getD_set_ne _ _ _ (by omega)]
    exact getD_set_self _ _ _ (by omega)
  simp only [fixupCond1, h433]
  simp

theorem fixupCond2_after_fix (x : List Nat) (h : fixupCond2 x = true) :
    fixupCond2 ((x.set 628 32).set 630 2) = false := by
  have hlen : x.length = 634 := by
    simp only [fixupCond2, Bool.and_eq_true, beq_iff_eq] at h
    exact h.1.1.1.1
  have h628 : ((x.set 628 32).set 630 2).getD 628 0 = 32 := by
    rw [getD_set_ne _ _ _ (by omega)]
    exact getD_set_self _ _ _ (by omega)
  simp only [fixupCond2, h628]
  simp

theorem fixup_cond1_result (r : List Nat) : fixupCond1 (appleib_report_fixup r) = false := by
  have hgen : ∀ (x : List Nat), fixupCond1 x = false →
      fixupCond1 (if fixupCond2 x then (x.set 628 32).set 630 2 else x) = false := by
    intro x hx
    by_cases h2 : fixupCond2 x = true
    · rw [if_pos h2, fixupCond1_set_other]
      exact hx
    · rw [if_neg h2]
      exact hx
  simp only [appleib_report_fixup]
  by_cases h1 : fixupCond1 r = true
  · rw [if_pos h1]
    exact hgen _ (fixupCond1_after_fix r h1)
  · rw [if_neg h1]
    exact hgen _ (by simpa using h1)

theorem fixup_cond2_result (r : List Nat) : fixupCond2 (appleib_report_fixup r) = false := by
  simp only [appleib_report_fixup]
  by_cases h1 : fixupCond1 r = true
  · rw [if_pos h1]
    by_cases h2 : fixupCond2 ((r.set 433 32).set 435 2) = true
    · rw [if_pos h2]
      exact fixupCond2_after_fix _ h2
    · rw [if_neg h2]
      simpa using h2
  · rw [if_neg h1]
    by_cases h2 : fixupCond2 r = true
    · rw [if_pos h2]
      exact fixupCond2_after_fix _ h2
    · rw [if_neg h2]
      simpa using h2

/-- C8: the descriptor fixup is idempotent on every buffer: a buffer the
fixup has rewritten no longer matches either fixed byte-pattern signature
(the report-size byte now reads 32, not 64), and a non-matching buffer passes
through unchanged, so a second application returns its input. -/
theorem C8_fixup_idempotent (r : List Nat) :
    appleib_report_fixup (appleib_report_fixup r) = appleib_report_fixup r := by
  have key : ∀ (y : List Nat), fixupCond1 y = false → fixupCond2 y = false →
      appleib_report_fixup y = y := by
    intro y h1 h2
    simp [appleib_report_fixup, h1, h2]
  exact key _ (fixup_cond1_result r) (fixup_cond2_result r)

/-- C1: counterexample — on the stream ordered exactly as the claim's example
([BeginCollection][UsagePage=0xFF12][Usage=0x0001][EndCollection]), the
usage-page and usage items sit at depth 1 (inside the collection), so the
scanner's depth-0 guard ignores them: the returned usage is 0, not
0xff120001 (end_offset is still just past the matching EndCollection). -/
theorem C1_counterexample :
    appleib_find_collection [0xA1, 0x01, 0x06, 0x12, 0xFF, 0x09, 0x01, 0xC0] = (0, []) ∧
    (appleib_find_collection [0xA1, 0x01, 0x06, 0x12, 0xFF, 0x09, 0x01, 0xC0]).1 ≠
      0xff120001 := by
  have h : appleib_find_collection [0xA1, 0x01, 0x06, 0x12, 0xFF, 0x09, 0x01, 0xC0] =
      (0, []) := by
    simp [appleib_find_collection, findCollectionAux, hid_fetch_item, hid_item_udata,
      HID_ITEM_TYPE_MAIN, HID_ITEM_TYPE_GLOBAL, HID_ITEM_TYPE_LOCAL,
      HID_MAIN_ITEM_TAG_BEGIN_COLLECTION, HID_MAIN_ITEM_TAG_END_COLLECTION,
      HID_GLOBAL_ITEM_TAG_USAGE_PAGE, HID_LOCAL_ITEM_TAG_USAGE]
  exact ⟨h, by rw [h]; decide⟩

/-- C1 (amended): with the usage items at depth 0, i.e. before the
BeginCollection ([UsagePage=0xFF12][Usage=0x0001][BeginCollection]...
[EndCollection]), the scanner walks items with a depth counter starting at 0,
the usage-page item sets the high 16 bits and the usage item the low 16 bits
of the returned usage, and the returned cursor points just past the matching
EndCollection: usage is 0xff120001 and the remainder is exactly the bytes
after that EndCollection, for every properly nested body of sub-collections
in between. -/
theorem C1_usage_capture (body : List RawItem) (tail : List Nat)
    (h1 : body.all wfItem = true) (h2 : staysAbove 1 body = true)
    (h3 : netList body = 0) :
    appleib_find_collection
        (0x06 :: 0x12 :: 0xFF :: 0x09 :: 0x01 :: 0xA1 :: 0x01 ::
          (encodeList body ++ 0xC0 :: tail)) = (0xff120001, tail) := by
  have hwf : wfTLC ⟨[⟨1, 0, [0x12, 0xFF]⟩, ⟨2, 0, [0x01]⟩], ⟨0, 10, [0x01]⟩, body,
      ⟨0, 12, []⟩⟩ = true := by
    simp [wfTLC, wfItem, isPreItem, h1, h2, h3]
  have hseg := find_collection_segment _ tail hwf
  have hbytes : TLC.bytes ⟨[⟨1, 0, [0x12, 0xFF]⟩, ⟨2, 0, [0x01]⟩], ⟨0, 10, [0x01]⟩, body,
      ⟨0, 12, []⟩⟩ ++ tail =
      0x06 :: 0x12 :: 0xFF :: 0x09 :: 0x01 :: 0xA1 :: 0x01 ::
        (encodeList body ++ 0xC0 :: tail) := by
    simp [TLC.bytes, encodeList, encodeItem, sizeCode]
  have husage : TLC.usage ⟨[⟨1, 0, [0x12, 0xFF]⟩, ⟨2, 0, [0x01]⟩], ⟨0, 10, [0x01]⟩, body,
      ⟨0, 12, []⟩⟩ = 0xff120001 := by
    simp only [TLC.usage]
    decide
  rw [← hbytes, hseg, husage]

/-- C1 witness: a concrete nested body (one empty sub-collection) and a
nonempty tail. -/
theorem C1_usage_capture_witness :
    ([⟨0, 10, []⟩, ⟨0, 12, []⟩] : List RawItem).all wfItem = true ∧
    staysAbove 1 [⟨0, 10, []⟩, ⟨0, 12, []⟩] = true ∧
    netList [⟨0, 10, []⟩, ⟨0, 12, []⟩] = 0 ∧
    appleib_find_collection
        (0x06 :: 0x12 :: 0xFF :: 0x09 :: 0x01 :: 0xA1 :: 0x01 ::
          (encodeList [⟨0, 10, []⟩, ⟨0, 12, []⟩] ++ 0xC0 :: [0x42])) =
      (0xff120001, [0x42]) :=
  ⟨by decide, by decide, by decide,
    C1_usage_capture [⟨0, 10, []⟩, ⟨0, 12, []⟩] [0x42] (by decide) (by decide) (by decide)⟩

/-- C2: counterexample — on the empty descriptor (N = 0 top-level
collections) the loop still runs once and produces one empty segment with
usage 0, not zero segments. -/
theorem C2_counterexample :
    scanSegments [] = [([], 0)] ∧ (scanSegments []).length ≠ 0 := by
  have hfc : appleib_find_collection [] = (0, []) := @findCollectionAux_fetch_none [] rfl 0 0
  have h : scanSegments [] = [([], 0)] := by
    rw [scanSegments_unfold]
    simp [hfc]
  exact ⟨h, by rw [h]; decide⟩

/-- C2 (amended): for every descriptor composed of N ≥ 1 well-formed
top-level collections with recognized usages, N at most the sub-device
capacity 2, repeated scanning from offset 0, resuming at each previous end
offset, produces exactly N segments, one per collection in order, whose
concatenation is the original descriptor. -/
theorem C2_partition (ts : List TLC) (hne : ts ≠ []) (hwf : ts.all wfTLC = true)
    (hrec : ts.all (fun t => appleib_usage_in_list (TLC.usage t)) = true)
    (hcap : ts.length ≤ 2) :
    scanSegments ((ts.map TLC.bytes).flatten) =
      ts.map (fun t => (TLC.bytes t, TLC.usage t)) ∧
    ((scanSegments ((ts.map TLC.bytes).flatten)).map Prod.fst).flatten =
      (ts.map TLC.bytes).flatten ∧
    (scanSegments ((ts.map TLC.bytes).flatten)).length = ts.length := by
  have h := scanSegments_concat ts hne hwf
  refine ⟨h, ?_, ?_⟩
  · rw [h]
    simp [List.map_map]
    rfl
  · rw [h]
    simp

/-- C2 witness: a single Touch Bar collection. -/
theorem C2_partition_witness :
    ([tlcTB] : List TLC) ≠ [] ∧ ([tlcTB] : List TLC).all wfTLC = true ∧
    ([tlcTB] : List TLC).all (fun t => appleib_usage_in_list (TLC.usage t)) = true ∧
    ([tlcTB] : List TLC).length ≤ 2 ∧
    scanSegments ((([tlcTB] : List TLC).map TLC.bytes).flatten) =
      ([tlcTB] : List TLC).map (fun t => (TLC.bytes t, TLC.usage t)) :=
  ⟨by simp, by decide, by decide, by decide,
    (C2_partition [tlcTB] (by simp) (by decide) (by decide) (by decide)).1⟩

theorem usagePre_neutral (pre : List RawItem) :
    ∀ u, pre.all
        (fun it => !(it.type == 1 && it.tag == 0) && !(it.type == 2 && it.tag == 0)) = true →
      pre.foldl (fun a it => usageStep it a) u = u := by
  induction pre with
  | nil =>
    intro u _
    rfl
  | cons it rest ih =>
    intro u hall
    simp only [List.all_cons, Bool.and_eq_true] at hall
    have h1 : ¬(it.type = 1 ∧ it.tag = 0) := by
      rintro ⟨hx, hy⟩
      simp [hx, hy] at hall
    have h2 : ¬(it.type = 2 ∧ it.tag = 0) := by
      rintro ⟨hx, hy⟩
      simp [hx, hy] at hall
    simp only [List.foldl_cons]
    rw [show usageStep it u = u from by simp only [usageStep]; rw [if_neg h1, if_neg h2]]
    exact ih u hall.2

/-- C10: every Scanner call resets the usage accumulator to 0, so a segment's
usage derives only from its own depth-0 usage items and cannot leak from a
previously scanned segment: a top-level collection with no depth-0 usage-page
or usage items in its own segment reports usage 0 whatever follows it, even
when scanned right after a segment carrying a recognized usage; usage 0 is
not in the classification table, so such a segment is skipped. -/
theorem C10_usage_reset (s t : TLC) (hs : wfTLC s = true) (ht : wfTLC t = true)
    (hneutral : t.pre.all
      (fun it => !(it.type == 1 && it.tag == 0) && !(it.type == 2 && it.tag == 0)) = true) :
    (∀ tail, appleib_find_collection (TLC.bytes t ++ tail) = (0, tail)) ∧
    scanSegments (TLC.bytes s ++ TLC.bytes t) =
      [(TLC.bytes s, TLC.usage s), (TLC.bytes t, 0)] ∧
    appleib_usage_in_list 0 = false := by
  have hu0 : TLC.usage t = 0 := usagePre_neutral t.pre 0 hneutral
  refine ⟨fun tail => ?_, ?_, by decide⟩
  · have h := find_collection_segment t tail ht
    rwa [hu0] at h
  · rw [scanSegments_TLC s _ hs, if_neg (TLC_bytes_ne_nil t)]
    have h : scanSegments (TLC.bytes t) = [(TLC.bytes t, TLC.usage t)] := by
      conv_lhs => rw [← List.append_nil (TLC.bytes t)]
      rw [scanSegments_TLC t [] ht]
      simp
    rw [h, hu0]

/-- C10 witness: a bare collection (no depth-0 usage items) scanned after the
Touch Bar collection reports usage 0 and is unrecognized. -/
theorem C10_usage_reset_witness :
    appleib_find_collection (TLC.bytes tlcBare ++ [0x33]) = (0, [0x33]) ∧
    scanSegments (TLC.bytes tlcTB ++ TLC.bytes tlcBare) =
      [(TLC.bytes tlcTB, TLC.usage tlcTB), (TLC.bytes tlcBare, 0)] ∧
    appleib_usage_in_list 0 = false := by
  have h := C10_usage_reset tlcTB tlcBare (by decide) (by decide) (by decide)
  exact ⟨h.1 [0x33], h.2.1, h.2.2⟩

/-- C5: if the creation loop surfaces an error (a virtual device's creation
or registration failed), then every sibling virtual device registered by the
loop before the failure has been destroyed again before the error is
returned: starting from an empty registration state, the attach fails with
that error and zero virtual devices remain registered. -/
theorem C5_rollback_on_error (bytes : List Nat) (fail : Nat → Option Int) (n : Nat)
    (e : Int)
    (herr : (appleib_add_sub_devs bytes fail ⟨n, []⟩).1 = .error e) :
    (appleib_add_sub_devs bytes fail ⟨n, []⟩).2.2.registered = [] :=
  processSegs_error_rollback fail (scanSegments bytes) 0 [none, none] ⟨n, []⟩
    (by intro x hx; simp at hx) e herr

/-- C5 witness: two recognized collections; creating the second sub-device
fails with -19, the first (already registered) is destroyed again, and no
device remains registered. -/
theorem C5_rollback_on_error_witness :
    (appleib_add_sub_devs (TLC.bytes tlcTB ++ TLC.bytes tlcALS)
        (fun j => if j = 0 then none else some (-19)) ⟨0, []⟩).1 = Except.error (-19) ∧
    (appleib_add_sub_devs (TLC.bytes tlcTB ++ TLC.bytes tlcALS)
        (fun j => if j = 0 then none else some (-19)) ⟨0, []⟩).2.2.registered = [] := by
  have hscan : scanSegments (TLC.bytes tlcTB ++ TLC.bytes tlcALS) =
      [(TLC.bytes tlcTB, TLC.usage tlcTB), (TLC.bytes tlcALS, TLC.usage tlcALS)] := by
    rw [scanSegments_TLC tlcTB _ (by decide), if_neg (TLC_bytes_ne_nil tlcALS)]
    conv_lhs => rw [← List.append_nil (TLC.bytes tlcALS)]
    rw [scanSegments_TLC tlcALS [] (by decide)]
    simp
  have herr : (appleib_add_sub_devs (TLC.bytes tlcTB ++ TLC.bytes tlcALS)
      (fun j => if j = 0 then none else some (-19)) ⟨0, []⟩).1 = Except.error (-19) := by
    simp only [appleib_add_sub_devs]
    rw [hscan]
    rfl
  exact ⟨herr,
    C5_rollback_on_error (TLC.bytes tlcTB ++ TLC.bytes tlcALS)
      (fun j => if j = 0 then none else some (-19)) 0 (-19) herr⟩

/-- C7: with a never-failing factory, the attach loop always succeeds —
unrecognized top-level collections and recognized ones beyond the two-slot
capacity are skipped without failing the attach and without creating a
virtual device — and the occupied slots hold exactly the usages of the first
(at most two) recognized collections in scan order. -/
theorem C7_skip_and_cap (bytes : List Nat) (fail : Nat → Option Int)
    (hfail : ∀ j, fail j = none) (n : Nat) :
    (appleib_add_sub_devs bytes fail ⟨n, []⟩).1 = .ok () ∧
    slotUsages (appleib_add_sub_devs bytes fail ⟨n, []⟩).2.1 =
      (recogUsages (scanSegments bytes)).take 2 := by
  have h := processSegs_ok_usages fail hfail (scanSegments bytes) [] 2 ⟨n, []⟩
  simpa [appleib_add_sub_devs, List.replicate_succ] using h

/-- C7 witness: an unrecognized bare collection followed by the Touch Bar
collection: the attach succeeds and only the Touch Bar usage occupies a
slot. -/
theorem C7_skip_and_cap_witness :
    (appleib_add_sub_devs (TLC.bytes tlcBare ++ TLC.bytes tlcTB)
        (fun _ => none) ⟨0, []⟩).1 = Except.ok () ∧
    slotUsages (appleib_add_sub_devs (TLC.bytes tlcBare ++ TLC.bytes tlcTB)
        (fun _ => none) ⟨0, []⟩).2.1 = [0xff120001] := by
  have hscan : scanSegments (TLC.bytes tlcBare ++ TLC.bytes tlcTB) =
      [(TLC.bytes tlcBare, TLC.usage tlcBare), (TLC.bytes tlcTB, TLC.usage tlcTB)] := by
    rw [scanSegments_TLC tlcBare _ (by decide), if_neg (TLC_bytes_ne_nil tlcTB)]
    conv_lhs => rw [← List.append_nil (TLC.bytes tlcTB)]
    rw [scanSegments_TLC tlcTB [] (by decide)]
    simp
  have h := C7_skip_and_cap (TLC.bytes tlcBare ++ TLC.bytes tlcTB) (fun _ => none)
    (fun _ => rfl) 0
  refine ⟨h.1, ?_⟩
  rw [h.2, hscan]
  rfl

/-- C9: counterexample — a descriptor with two top-level collections carrying
the same recognized usage 0xff120001 yields two occupied slots created for
the same usage identity: the loop deduplicates nothing, so "the usage
identities of any two distinct occupied slots differ" fails. -/
theorem C9_counterexample :
    (appleib_add_sub_devs (TLC.bytes tlcTB ++ TLC.bytes tlcTB)
        (fun _ => none) ⟨0, []⟩).2.1 =
      [some (0, 0xff120001), some (1, 0xff120001)] ∧
    ¬(∀ (j1 j2 : Nat) (p1 p2 : Nat × Nat), j1 ≠ j2 →
        (appleib_add_sub_devs (TLC.bytes tlcTB ++ TLC.bytes tlcTB)
            (fun _ => none) ⟨0, []⟩).2.1.getD j1 none = some p1 →
        (appleib_add_sub_devs (TLC.bytes tlcTB ++ TLC.bytes tlcTB)
            (fun _ => none) ⟨0, []⟩).2.1.getD j2 none = some p2 →
        p1.2 ≠ p2.2) := by
  have hscan : scanSegments (TLC.bytes tlcTB ++ TLC.bytes tlcTB) =
      [(TLC.bytes tlcTB, TLC.usage tlcTB), (TLC.bytes tlcTB, TLC.usage tlcTB)] := by
    rw [scanSegments_TLC tlcTB _ (by decide), if_neg (TLC_bytes_ne_nil tlcTB)]
    conv_lhs => rw [← List.append_nil (TLC.bytes tlcTB)]
    rw [scanSegments_TLC tlcTB [] (by decide)]
    simp
  have hslots : (appleib_add_sub_devs (TLC.bytes tlcTB ++ TLC.bytes tlcTB)
      (fun _ => none) ⟨0, []⟩).2.1 = [some (0, 0xff120001), some (1, 0xff120001)] := by
    simp only [appleib_add_sub_devs]
    rw [hscan]
    rfl
  refine ⟨hslots, fun hcon => ?_⟩
  have h := hcon 0 1 (0, 0xff120001) (1, 0xff120001) (by decide)
    (by rw [hslots]; rfl) (by rw [hslots]; rfl)
  exact h rfl

/-- C9 (amended): what the table does guarantee is at most one virtual device
per slot, with at most capacity (two) slots occupied and pairwise distinct
device identities across distinct occupied slots; the usage identity, by
contrast, may repeat when the descriptor repeats a recognized usage. -/
theorem C9_slot_identity (bytes : List Nat) (fail : Nat → Option Int) (n : Nat) :
    (slotIds (appleib_add_sub_devs bytes fail ⟨n, []⟩).2.1).Nodup ∧
    (slotIds (appleib_add_sub_devs bytes fail ⟨n, []⟩).2.1).length ≤ 2 := by
  obtain ⟨front', k', heq, hnd, hlen⟩ :=
    processSegs_slots_shape fail (scanSegments bytes) [] 2 ⟨n, []⟩ (by simp) (by simp)
  have halign : (appleib_add_sub_devs bytes fail ⟨n, []⟩).2.1 =
      front'.map some ++ List.replicate k' none := heq
  rw [halign, slotIds_front]
  refine ⟨hnd, ?_⟩
  simp only [List.length_nil, Nat.zero_add] at hlen
  simp only [List.length_map]
  omega

end AppleIB
